import Mathlib

/-!
Shallow embedding of `src/storage.py` (SQLite storage for scrape history)
of the webscraper-multi-agent repository, together with proofs about the
store operations `start_scrape_request`, `log_tool_call`,
`update_request_final_result`, `update_step_outcome`, `search_history` and
`add_advice`.

Modelling conventions:
  * Python strings are `List Char`; `str.lower` is modelled by
    `Char.toLower` (ASCII case folding — Unicode case-mapping differences
    are out of scope for the proved properties).
  * The SQLite table `scrape_requests` is a list of rows in insertion
    order plus the AUTOINCREMENT counter; `SELECT ... WHERE id = ?` on the
    primary key is `List.find?` on the row id.
  * Timestamps (`datetime('now')`, `datetime.now().isoformat()`) are an
    explicit `now : Nat` parameter of each operation.
  * The thread-local current request id (`_thread_local.request_id`) is a
    field of the store state.
  * A raised `ValueError` is `Except.error`; the two raise sites of
    `storage.py` are distinguished by the `Err` constructors.
-/

namespace WebScraper

/-- Build the `List Char` representation of a string literal. -/
def str (s : String) : List Char := s.data

/-- Python `str.lower()` (ASCII fold, see module conventions). -/
def pyLower (l : List Char) : List Char := l.map Char.toLower

/-- Whitespace characters removed by Python `str.strip()` (ASCII subset). -/
def isSpaceChar (c : Char) : Bool :=
  c = ' ' || c = '\t' || c = '\n' || c = '\x0d' || c = '\x0b' || c = '\x0c'

/-- Python `str.strip()`: drop leading and trailing whitespace. -/
def pyStrip (l : List Char) : List Char :=
  ((l.dropWhile isSpaceChar).reverse.dropWhile isSpaceChar).reverse

/-- Python `str.lstrip("www.")`: removes the longest leading run of
characters drawn from the set `{'w', '.'}` (Python's `lstrip` takes a
character set, not a literal prefix). -/
def lstripWWW : List Char → List Char
  | [] => []
  | c :: cs => if c = 'w' ∨ c = '.' then lstripWWW cs else c :: cs

/-- `_domain_from_url` of `storage.py`, applied to the URL's network
location: `netloc.lower().lstrip("www.") or "(no domain)"`. The
`urlparse` extraction is abstracted by taking the netloc as input (for a
string argument `urlparse` does not raise, so the `except` branch
returning `"(unknown)"` is dead for the inputs modelled here). -/
def domain_from_url (netloc : List Char) : List Char :=
  let d := lstripWWW (pyLower netloc)
  if d = [] then str "(no domain)" else d

/-- The domain normalization `domain.strip().lower().lstrip("www.")`
shared by `add_advice` and `get_advice_for_domain` in `storage.py`. -/
def normalize_advice_domain (d : List Char) : List Char :=
  lstripWWW (pyLower (pyStrip d))

/-- The normalization the spec describes: lowercase the hostname, then
remove exactly one leading literal `"www."` prefix when present. Stated
from the spec's words, for comparison with the code's `domain_from_url`
and `normalize_advice_domain`. -/
def spec_normalize_host (h : List Char) : List Char :=
  let l := pyLower h
  if l.take 4 = str "www." then l.drop 4 else l

/-- `_RESULT_SUMMARY_MAX` of `storage.py`. -/
def RESULT_SUMMARY_MAX : Nat := 500

/-- The `result_summary` computation of `log_tool_call`:
`result[:_RESULT_SUMMARY_MAX] + ("..." if len(result) > _RESULT_SUMMARY_MAX else "")`. -/
def summarize (result : List Char) : List Char :=
  result.take RESULT_SUMMARY_MAX ++
    (if RESULT_SUMMARY_MAX < result.length then str "..." else [])

/-- One element of a request's `steps` JSON array (the step dict built in
`log_tool_call`; the `arguments` dict is carried through its JSON
serialization `arguments_json`). In the Python dict `step_id` is first
`None` and then set to the array index before the append; the model sets
it directly at the append. -/
structure Step where
  step_id : Nat
  url : List Char
  domain : List Char
  tool_name : List Char
  arguments_json : List Char
  result : List Char
  result_summary : List Char
  timestamp : Nat
  led_to_data : Option Bool
  evaluator_notes : Option (List Char)
deriving Repr, DecidableEq

/-- One row of the `scrape_requests` table (`steps_json` held parsed). -/
structure ScrapeRequest where
  id : Nat
  prompt : List Char
  domain : Option (List Char)
  steps : List Step
  final_result : Option (List Char)
  success : Option Bool
  created_at : Nat
  updated_at : Nat
deriving Repr, DecidableEq

/-- One row of the `scraping_advice` table. -/
structure AdviceRow where
  id : Nat
  domain : List Char
  advice : List Char
  created_at : Nat
deriving Repr, DecidableEq

/-- The whole store state: both tables with their AUTOINCREMENT counters
(SQLite row ids start at 1), plus the thread-local current request id. -/
structure Store where
  requests : List ScrapeRequest
  nextId : Nat
  currentRequestId : Option Nat
  advice : List AdviceRow
  nextAdviceId : Nat
deriving Repr, DecidableEq

/-- The two `raise ValueError` sites of `storage.py` (the spec's
`NotFound` and `OutOfRange` failures). -/
inductive Err where
  | notFound (rid : Nat)
  | outOfRange (stepId : Int) (rid : Nat)
deriving Repr, DecidableEq

/-- `SELECT ... FROM scrape_requests WHERE id = ?` (primary-key lookup). -/
def findReq (s : Store) (rid : Nat) : Option ScrapeRequest :=
  s.requests.find? (fun r => r.id == rid)

/-- `UPDATE scrape_requests SET ... WHERE id = ?`: apply the row edit `g`
to every row whose id matches. -/
def updateRows (rid : Nat) (g : ScrapeRequest → ScrapeRequest)
    (l : List ScrapeRequest) : List ScrapeRequest :=
  l.map (fun r => if r.id = rid then g r else r)

/-- The fresh row inserted by `start_scrape_request`: empty steps array,
NULL domain/final_result/success, both timestamps set by the defaults. -/
def newRequestRow (prompt : List Char) (now rid : Nat) : ScrapeRequest :=
  { id := rid, prompt := prompt, domain := none, steps := [],
    final_result := none, success := none,
    created_at := now, updated_at := now }

/-- `start_scrape_request`: insert a fresh row with an empty steps array
and set the thread-local current request id. -/
def start_scrape_request (prompt : List Char) (now : Nat) (s : Store) :
    Nat × Store :=
  (s.nextId,
    { s with
      requests := s.requests ++ [newRequestRow prompt now s.nextId]
      nextId := s.nextId + 1
      currentRequestId := some s.nextId })

/-- The arguments of one `log_tool_call` invocation (`now` stands for
both the step timestamp and the row's `updated_at`). -/
structure LogArgs where
  url : List Char
  tool_name : List Char
  arguments_json : List Char
  result : List Char
  now : Nat
deriving Repr, DecidableEq

/-- The step dict built by `log_tool_call` before the database write
(with `step_id` still to be filled in). -/
def mkStep (a : LogArgs) : Step :=
  { step_id := 0
    url := a.url
    domain := domain_from_url a.url
    tool_name := a.tool_name
    arguments_json := a.arguments_json
    result := a.result
    result_summary := summarize a.result
    timestamp := a.now
    led_to_data := none
    evaluator_notes := none }

/-- What the `SELECT steps_json, domain ... WHERE id = ?` of
`log_tool_call` reads from the row. -/
structure ReadRes where
  steps : List Step
  domain : Option (List Char)
deriving Repr, DecidableEq

/-- The read half of `log_tool_call`'s read-modify-write (lines 176-180
of `storage.py`): one SQLite `SELECT`, returning `none` when the row is
absent. -/
def logReadPhase (s : Store) (rid : Nat) : Option ReadRes :=
  (findReq s rid).map (fun r => { steps := r.steps, domain := r.domain })

/-- The new steps array computed by `log_tool_call` from the values read:
`step["step_id"] = len(steps); steps.append(step)`. -/
def writeSteps (rr : ReadRes) (a : LogArgs) : List Step :=
  rr.steps ++ [{ mkStep a with step_id := rr.steps.length }]

/-- `new_domain = current_domain or domain` of `log_tool_call`: a SQL
`NULL` or empty current domain is falsy in Python and is replaced by the
new step's domain. -/
def writeDomain (rr : ReadRes) (a : LogArgs) : List Char :=
  match rr.domain with
  | none => domain_from_url a.url
  | some d => if d = [] then domain_from_url a.url else d

/-- The row edit of `log_tool_call`'s UPDATE: store the new steps array
and domain and refresh `updated_at`. -/
def logRowEdit (rr : ReadRes) (a : LogArgs) (r : ScrapeRequest) :
    ScrapeRequest :=
  { r with steps := writeSteps rr a,
           domain := some (writeDomain rr a),
           updated_at := a.now }

/-- The write half of `log_tool_call`'s read-modify-write (lines 182-197
of `storage.py`): compute the new steps array and domain from the values
READ EARLIER (`rr`) and run the `UPDATE`. -/
def logWritePhase (rid : Nat) (rr : ReadRes) (a : LogArgs) (s : Store) :
    Store :=
  { s with requests := updateRows rid (logRowEdit rr a) s.requests }

/-- Request-id resolution at the top of `log_tool_call`: explicit id, else
the thread-local current id, else auto-create a request with the generic
prompt. -/
def resolveRequestId (requestId : Option Nat) (now : Nat) (s : Store) :
    Nat × Store :=
  match requestId with
  | some r => (r, s)
  | none =>
    match s.currentRequestId with
    | some r => (r, s)
    | none => start_scrape_request (str "(auto-created from tool call)") now s

/-- `log_tool_call` of `storage.py`: resolve the request id, then perform
the read phase and the write phase (sequentially here; the concurrent
interleaving of the two phases is modelled separately below).
`resolveRequestId` is pure, so the repeated projections denote the single
resolution the Python performs. -/
def log_tool_call (a : LogArgs) (requestId : Option Nat) (s : Store) :
    Except Err Store :=
  match logReadPhase (resolveRequestId requestId a.now s).2
      (resolveRequestId requestId a.now s).1 with
  | none =>
    Except.error (Err.notFound (resolveRequestId requestId a.now s).1)
  | some rr =>
    Except.ok (logWritePhase (resolveRequestId requestId a.now s).1 rr a
      (resolveRequestId requestId a.now s).2)

/-- A sequence of `log_tool_call` invocations against one request id. -/
def applyLogs (logs : List LogArgs) (rid : Nat) (s : Store) :
    Except Err Store :=
  match logs with
  | [] => Except.ok s
  | a :: rest =>
    match log_tool_call a (some rid) s with
    | Except.error e => Except.error e
    | Except.ok s2 => applyLogs rest rid s2

/-- The row edit of `update_request_final_result`'s UPDATE: assign only
the provided fields, refresh `updated_at`. -/
def finalRowEdit (finalResult : Option (List Char)) (success : Option Bool)
    (now : Nat) (r : ScrapeRequest) : ScrapeRequest :=
  { r with
    final_result := match finalResult with
      | some f => some f
      | none => r.final_result
    success := match success with
      | some b => some b
      | none => r.success
    updated_at := now }

/-- `update_request_final_result` of `storage.py`: build the SET clause
from the provided fields; with no fields it returns before touching the
database; otherwise the `UPDATE ... WHERE id = ?` edits the matching rows
(zero rows when the id is absent — SQLite raises no error then, so the
model is a total function). -/
def update_request_final_result (rid : Nat) (finalResult : Option (List Char))
    (success : Option Bool) (now : Nat) (s : Store) : Store :=
  if finalResult = none ∧ success = none then s
  else
    { s with
      requests := updateRows rid (finalRowEdit finalResult success now)
        s.requests }

/-- The row edit of `update_step_outcome`'s UPDATE: store the edited
steps array, refresh `updated_at`. -/
def outcomeRowEdit (newSteps : List Step) (now : Nat) (q : ScrapeRequest) :
    ScrapeRequest :=
  { q with steps := newSteps, updated_at := now }

/-- The in-place field edit of `update_step_outcome` on the selected step:
assign `led_to_data` / `evaluator_notes` only when provided. -/
def editStep (ledToData : Option Bool) (notes : Option (List Char))
    (st : Step) : Step :=
  { st with
    led_to_data := match ledToData with
      | some b => some b
      | none => st.led_to_data
    evaluator_notes := match notes with
      | some nt => some nt
      | none => st.evaluator_notes }

/-- `update_step_outcome` of `storage.py`: the no-op check on the two
optional fields comes FIRST (before any database access), then the row
lookup (`NotFound`), then the index bounds check
(`step_id < 0 or step_id >= len(steps)`, `OutOfRange`), then the in-place
field edit and the row `UPDATE`. -/
def update_step_outcome (rid : Nat) (stepId : Int) (ledToData : Option Bool)
    (notes : Option (List Char)) (now : Nat) (s : Store) : Except Err Store :=
  if ledToData = none ∧ notes = none then Except.ok s
  else
    match findReq s rid with
    | none => Except.error (Err.notFound rid)
    | some r =>
      if h : stepId < 0 ∨ (r.steps.length : Int) ≤ stepId then
        Except.error (Err.outOfRange stepId rid)
      else
        have hlt : stepId.toNat < r.steps.length := by
          rcases not_or.mp h with ⟨h1, h2⟩
          omega
        Except.ok
          { s with
            requests := updateRows rid
              (outcomeRowEdit
                (r.steps.set stepId.toNat
                  (editStep ledToData notes
                    (r.steps.get ⟨stepId.toNat, hlt⟩)))
                now)
              s.requests }

/-- Does `f` accept some suffix of the list (the list itself included)? -/
def anySuffixMatch (f : List Char → Bool) : List Char → Bool
  | [] => f []
  | d :: t2 => f (d :: t2) || anySuffixMatch f t2

/-- SQLite `LIKE` pattern matching (default `case_sensitive_like` off:
ASCII case-insensitive): `%` matches any sequence — i.e. the rest of the
pattern matches some suffix of the text — `_` matches any single
character, any other pattern character matches case-insensitively. -/
def likeMatch : List Char → List Char → Bool
  | [], t => t.isEmpty
  | c :: p, t =>
    if c = '%' then anySuffixMatch (likeMatch p) t
    else
      match t with
      | [] => false
      | d :: t2 =>
        (if c = '_' then true else c.toLower == d.toLower) && likeMatch p t2

/-- The `domain LIKE ?` clause of `search_history` and `get_advice`, whose
parameter is `f"%{domain}%"`. -/
def likeContains (f s : List Char) : Bool :=
  likeMatch ('%' :: (f ++ ['%'])) s

/-- A filter string free of the SQL `LIKE` wildcard characters. -/
def noWild (f : List Char) : Prop := ('%' ∉ f) ∧ ('_' ∉ f)

instance (f : List Char) : Decidable (noWild f) := by
  unfold noWild; infer_instance

/-- `limit = max(1, min(limit, 500))` of `search_history`/`get_advice`. -/
def clampLimit (limit : Int) : Nat := (max 1 (min limit 500)).toNat

/-- The domain-filter normalization of `search_history`:
`domain = (domain or "").strip().lower() if domain else None`, and the
later `if domain:` makes an empty normalized filter equivalent to no
filter at all. -/
def domainFilterNorm (d : Option (List Char)) : Option (List Char) :=
  match d with
  | none => none
  | some dl =>
    if dl = [] then none
    else
      let f := pyLower (pyStrip dl)
      if f = [] then none else some f

/-- `url_contains = (url_contains or "").strip() or None`. -/
def urlContainsNorm (u : Option (List Char)) : Option (List Char) :=
  let s2 := pyStrip (match u with | none => [] | some ul => ul)
  if s2 = [] then none else some s2

/-- The `ORDER BY created_at DESC` ordering: the left row is at least as
new as the right one. -/
def newerEq (a b : ScrapeRequest) : Prop := b.created_at ≤ a.created_at

instance : DecidableRel newerEq := fun a b =>
  inferInstanceAs (Decidable (b.created_at ≤ a.created_at))

instance : IsTotal ScrapeRequest newerEq :=
  ⟨fun a b => le_total b.created_at a.created_at⟩

instance : IsTrans ScrapeRequest newerEq :=
  ⟨fun _ _ _ hab hbc => le_trans hbc hab⟩

/-- The per-step test of the `url_contains` post-filter:
`url_contains.lower() in s.get("url", "").lower()`. -/
def stepUrlMatch (u : List Char) (st : Step) : Bool :=
  decide (pyLower u <:+: pyLower st.url)

/-- The SQL WHERE clause of `search_history`: no domain filter passes
every row; a filter requires a non-NULL domain matching
`LIKE '%'||filter||'%'`. -/
def domainPass (dn : Option (List Char)) (r : ScrapeRequest) : Bool :=
  match dn with
  | none => true
  | some f =>
    match r.domain with
    | none => false
    | some dd => likeContains f dd

/-- `search_history` of `storage.py`: normalize the filters, clamp the
limit, run the SQL query (WHERE `domain LIKE '%'||domain||'%'` when the
filter is non-empty, ORDER BY `created_at` DESC, LIMIT), then apply the
`url_contains` filter in Python — note: AFTER the LIMIT was applied. -/
def search_history (s : Store) (domain : Option (List Char))
    (urlContains : Option (List Char)) (limit : Int) : List ScrapeRequest :=
  let limited :=
    (List.insertionSort newerEq
      (s.requests.filter (domainPass (domainFilterNorm domain)))).take
      (clampLimit limit)
  match urlContainsNorm urlContains with
  | none => limited
  | some u2 => limited.filter (fun r => r.steps.any (stepUrlMatch u2))

/-- `add_advice` of `storage.py`: normalize the domain argument and insert
a new `scraping_advice` row (no overwrite, no deduplication). -/
def add_advice (d advice : List Char) (now : Nat) (s : Store) : Nat × Store :=
  let nd := normalize_advice_domain d
  (s.nextAdviceId,
    { s with
      advice := s.advice ++
        [{ id := s.nextAdviceId, domain := nd, advice := advice,
           created_at := now }]
      nextAdviceId := s.nextAdviceId + 1 })

/-! ### Helper lemmas about the table primitives -/

theorem find?_map_pres {α : Type} (p : α → Bool) (f : α → α)
    (hf : ∀ x, p (f x) = p x) (l : List α) :
    (l.map f).find? p = (l.find? p).map f := by
  induction l with
  | nil => rfl
  | cons a t ih =>
    simp only [List.map_cons, List.find?_cons, hf]
    cases p a <;> simp [ih]

theorem find?_append_some {α : Type} {p : α → Bool} {l : List α} {a : α}
    (l2 : List α) (h : l.find? p = some a) : (l ++ l2).find? p = some a := by
  rw [List.find?_append, h]; rfl

theorem find?_some_id {s : Store} {rid : Nat} {r : ScrapeRequest}
    (h : findReq s rid = some r) : r.id = rid := by
  simpa using List.find?_some h

theorem findReq_updateRows (s : Store) (rid rid2 : Nat)
    (g : ScrapeRequest → ScrapeRequest) (hg : ∀ r, (g r).id = r.id) :
    findReq { s with requests := updateRows rid g s.requests } rid2
      = (findReq s rid2).map (fun r => if r.id = rid then g r else r) := by
  show (updateRows rid g s.requests).find? (fun r => r.id == rid2) = _
  exact find?_map_pres _ _
    (fun x => by by_cases h : x.id = rid <;> simp [h, hg]) _

theorem findReq_updateRows_of_found {s : Store} {rid2 : Nat}
    {r : ScrapeRequest} (rid : Nat) (g : ScrapeRequest → ScrapeRequest)
    (hg : ∀ r, (g r).id = r.id) (h : findReq s rid2 = some r) :
    findReq { s with requests := updateRows rid g s.requests } rid2
      = some (if r.id = rid then g r else r) := by
  rw [findReq_updateRows s rid rid2 g hg, h]; rfl

theorem updateRows_not_present (rid : Nat) (g : ScrapeRequest → ScrapeRequest)
    (l : List ScrapeRequest) (h : ∀ r ∈ l, r.id ≠ rid) :
    updateRows rid g l = l := by
  unfold updateRows
  induction l with
  | nil => rfl
  | cons a t ih =>
    rw [List.map_cons, if_neg (h a (List.mem_cons_self a t)),
      ih (fun r hr => h r (List.mem_cons_of_mem a hr))]

theorem findReq_resolve (requestId : Option Nat) (now : Nat) (s : Store)
    {rid2 : Nat} {r : ScrapeRequest} (h : findReq s rid2 = some r) :
    findReq (resolveRequestId requestId now s).2 rid2 = some r := by
  unfold resolveRequestId
  cases requestId with
  | some x => exact h
  | none =>
    cases hc : s.currentRequestId with
    | some x => simpa [hc] using h
    | none =>
      simp only [hc]
      show (s.requests ++ _).find? (fun r => r.id == rid2) = some r
      exact find?_append_some _ h

theorem log_explicit_ok {s : Store} {rid : Nat} {r : ScrapeRequest}
    (a : LogArgs) (h : findReq s rid = some r) :
    log_tool_call a (some rid) s =
      Except.ok
        (logWritePhase rid { steps := r.steps, domain := r.domain } a s) := by
  unfold log_tool_call resolveRequestId logReadPhase
  simp [h]

theorem findReq_logWrite_self {s : Store} {rid : Nat} {r : ScrapeRequest}
    (rr : ReadRes) (a : LogArgs) (h : findReq s rid = some r) :
    findReq (logWritePhase rid rr a s) rid =
      some { r with steps := writeSteps rr a,
                    domain := some (writeDomain rr a),
                    updated_at := a.now } := by
  unfold logWritePhase
  rw [findReq_updateRows_of_found rid (logRowEdit rr a) (fun q => rfl) h,
    if_pos (find?_some_id h)]
  rfl

/-- The positional step-id invariant of a steps array. -/
def goodSteps (l : List Step) : Prop :=
  ∀ j (hj : j < l.length), (l.get ⟨j, hj⟩).step_id = j

theorem goodSteps_append {l : List Step} {st : Step} (hg : goodSteps l)
    (hid : st.step_id = l.length) : goodSteps (l ++ [st]) := by
  intro j hj
  have hj2 : j < l.length + 1 := by simpa using hj
  by_cases hlt : j < l.length
  · have : (l ++ [st]).get ⟨j, hj⟩ = l.get ⟨j, hlt⟩ := by
      simp [List.getElem_append_left hlt]
    rw [this]; exact hg j hlt
  · have hje : j = l.length := by omega
    subst hje
    have : (l ++ [st]).get ⟨l.length, hj⟩ = st := by
      simp
    rw [this, hid]

theorem set_preserve_map {l : List Step} {i : Nat} {v : Step}
    (hlt : i < l.length) (hv : v.step_id = (l.get ⟨i, hlt⟩).step_id) :
    (l.set i v).map Step.step_id = l.map Step.step_id := by
  induction l generalizing i with
  | nil => rfl
  | cons a t ih =>
    cases i with
    | zero => simpa using hv
    | succ n =>
      have hlt2 : n < t.length := by simpa using hlt
      simpa using ih hlt2 (by simpa using hv)

theorem editStep_none (st : Step) : editStep none none st = st := rfl

/-! ### Sample data for witnesses and counterexamples -/

def emptyStore : Store :=
  { requests := [], nextId := 1, currentRequestId := none,
    advice := [], nextAdviceId := 1 }

def req1 : ScrapeRequest :=
  { id := 1, prompt := str "scrape the docs", domain := none, steps := [],
    final_result := none, success := none, created_at := 0, updated_at := 0 }

def store1 : Store :=
  { requests := [req1], nextId := 2, currentRequestId := some 1,
    advice := [], nextAdviceId := 1 }

def argA : LogArgs :=
  { url := str "a.com", tool_name := str "fetch",
    arguments_json := str "null", result := str "r1", now := 1 }

def argB : LogArgs :=
  { url := str "b.org", tool_name := str "fetch",
    arguments_json := str "null", result := str "r2", now := 2 }

/-! ### Claim theorems -/

/-- C3: REFUTED by the code (code bug). `_domain_from_url` and
`add_advice` normalize with Python's `lstrip("www.")`, which removes the
longest leading run of characters from the SET `\x7b'w', '.'\x7d` rather
than one literal `"www."` prefix: the hostname `web.example.com`, which
does not begin with `www.`, is mangled to `eb.example.com` (and
`add_advice` stores `ow.example.com` for `wow.example.com`), while the
spec's normalization leaves both unchanged apart from lowercasing. -/
theorem domain_normalization_charset_bug :
    domain_from_url (str "web.example.com") = str "eb.example.com" ∧
    spec_normalize_host (str "web.example.com") = str "web.example.com" ∧
    domain_from_url (str "web.example.com") ≠
      spec_normalize_host (str "web.example.com") ∧
    normalize_advice_domain (str "wow.example.com") = str "ow.example.com" ∧
    spec_normalize_host (str "wow.example.com") = str "wow.example.com" ∧
    (add_advice (str "wow.example.com") (str "use playwright") 9
        emptyStore).2.advice =
      [{ id := 1, domain := str "ow.example.com",
         advice := str "use playwright", created_at := 9 }] ∧
    domain_from_url (str "WWW.Example.com") = str "example.com" := by
  refine ⟨by decide, by decide, by decide, by decide, by decide, by decide,
    by decide⟩

/-- C9: with both optional fields omitted, `update_step_outcome` returns
without error and without touching the store, even when the request id
refers to no existing request — the no-op check precedes the existence
check, so `NotFound` is not raised in that case. -/
theorem update_step_outcome_noop_first (s : Store) (rid : Nat)
    (stepId : Int) (now : Nat) :
    update_step_outcome rid stepId none none now s = Except.ok s := by
  unfold update_step_outcome
  simp

/-- C10: `update_request_final_result` on an absent request id returns
normally (the model is a total function, as the SQL UPDATE matching zero
rows raises nothing) and leaves the store unchanged. -/
theorem update_request_final_result_missing_noop (s : Store) (rid : Nat)
    (finalResult : Option (List Char)) (success : Option Bool) (now : Nat)
    (h : findReq s rid = none) :
    update_request_final_result rid finalResult success now s = s := by
  unfold update_request_final_result
  by_cases hb : finalResult = none ∧ success = none
  · rw [if_pos hb]
  · rw [if_neg hb, updateRows_not_present rid _ s.requests
      (fun r hr => by simpa using List.find?_eq_none.mp h r hr)]

theorem update_request_final_result_missing_noop_witness :
    update_request_final_result 7 (some (str "done")) (some true) 3 store1
      = store1 :=
  update_request_final_result_missing_noop store1 7 (some (str "done"))
    (some true) 3 rfl

/-- C8: the `result_summary` stored by `log_tool_call` is `result`
verbatim when `result` has at most 500 characters, and otherwise the
first 500 characters of `result` followed by `"..."`; its length never
exceeds 500 + 3; and the step record built by `log_tool_call` carries
exactly this summary. -/
theorem result_summary_spec :
    (∀ result : List Char, result.length ≤ RESULT_SUMMARY_MAX →
      summarize result = result)
  ∧ (∀ result : List Char, RESULT_SUMMARY_MAX < result.length →
      summarize result = result.take RESULT_SUMMARY_MAX ++ str "...")
  ∧ (∀ result : List Char,
      (summarize result).length ≤ RESULT_SUMMARY_MAX + (str "...").length)
  ∧ (∀ a : LogArgs, (mkStep a).result_summary = summarize a.result) := by
  refine ⟨?_, ?_, ?_, fun a => rfl⟩
  · intro result h
    unfold summarize
    rw [if_neg (by omega), List.append_nil, List.take_of_length_le h]
  · intro result h
    unfold summarize
    rw [if_pos h]
  · intro result
    unfold summarize RESULT_SUMMARY_MAX
    by_cases h : 500 < result.length
    · rw [if_pos h]
      simp only [List.length_append, List.length_take]
      have : (str "...").length = 3 := by decide
      omega
    · rw [if_neg h, List.append_nil]
      simp only [List.length_take]
      omega

/-- C7: `log_tool_call` with no explicit request id and no ambient
current request does not fail: it transparently creates a new request
with the placeholder prompt `"(auto-created from tool call)"` and appends
the step there; with an explicit request id that does not exist it fails
with `NotFound`. (The freshness hypothesis on `nextId` is the SQLite
AUTOINCREMENT invariant: every existing row id is below the next id.) -/
theorem log_tool_call_fallback_and_notfound :
    (∀ s a, s.currentRequestId = none →
      (∀ r ∈ s.requests, r.id < s.nextId) →
      ∃ s2 r2, log_tool_call a none s = Except.ok s2 ∧
        findReq s2 s.nextId = some r2 ∧
        r2.prompt = str "(auto-created from tool call)" ∧
        r2.steps.length = 1)
  ∧ (∀ s a rid, findReq s rid = none →
      log_tool_call a (some rid) s = Except.error (Err.notFound rid)) := by
  constructor
  · intro s a hc hfresh
    have hnone : s.requests.find? (fun r => r.id == s.nextId) = none :=
      List.find?_eq_none.mpr (fun r hr => by
        simpa using Nat.ne_of_lt (hfresh r hr))
    have hfindNew :
        findReq
          { s with
            requests := s.requests ++
              [newRequestRow (str "(auto-created from tool call)") a.now
                s.nextId]
            nextId := s.nextId + 1
            currentRequestId := some s.nextId } s.nextId =
          some (newRequestRow (str "(auto-created from tool call)") a.now
            s.nextId) := by
      show (s.requests ++
          [newRequestRow (str "(auto-created from tool call)") a.now
            s.nextId]).find?
          (fun (r : ScrapeRequest) => r.id == s.nextId) = _
      rw [List.find?_append, hnone]
      simp [newRequestRow]
    have hlog : log_tool_call a none s =
        Except.ok (logWritePhase s.nextId { steps := [], domain := none } a
          { s with
            requests := s.requests ++
              [newRequestRow (str "(auto-created from tool call)") a.now
                s.nextId]
            nextId := s.nextId + 1
            currentRequestId := some s.nextId }) := by
      unfold log_tool_call
      simp only [resolveRequestId, start_scrape_request, hc]
      unfold logReadPhase
      rw [hfindNew]
      rfl
    refine ⟨_, _, hlog, findReq_logWrite_self _ a hfindNew, rfl, rfl⟩
  · intro s a rid h
    unfold log_tool_call resolveRequestId logReadPhase
    simp [h]

theorem log_tool_call_fallback_and_notfound_witness :
    (∃ s2 r2, log_tool_call argA none emptyStore = Except.ok s2 ∧
      findReq s2 emptyStore.nextId = some r2 ∧
      r2.prompt = str "(auto-created from tool call)" ∧
      r2.steps.length = 1) ∧
    log_tool_call argA (some 5) emptyStore =
      Except.error (Err.notFound 5) :=
  ⟨log_tool_call_fallback_and_notfound.1 emptyStore argA rfl
      (fun r hr => absurd hr (List.not_mem_nil r)),
   log_tool_call_fallback_and_notfound.2 emptyStore argA 5 rfl⟩

/-- C4: first-domain-wins. Once a request's domain is set (and it is set
to the first logged step's normalized host, which is never the falsy
empty string), every later `log_tool_call` leaves it unchanged whatever
URL it carries: `new_domain = current_domain or domain` keeps a truthy
current domain. -/
theorem first_domain_wins :
    (∀ s rid r a s2, findReq s rid = some r → r.domain = none →
      log_tool_call a (some rid) s = Except.ok s2 →
      ∃ r2, findReq s2 rid = some r2 ∧
        r2.domain = some (domain_from_url a.url))
  ∧ (∀ s rid r a s2 d, findReq s rid = some r → r.domain = some d →
      d ≠ [] → log_tool_call a (some rid) s = Except.ok s2 →
      ∃ r2, findReq s2 rid = some r2 ∧ r2.domain = some d)
  ∧ (∀ netloc, domain_from_url netloc ≠ []) := by
  refine ⟨?_, ?_, ?_⟩
  · intro s rid r a s2 hf hd hok
    rw [log_explicit_ok a hf] at hok
    injection hok with hok
    subst hok
    refine ⟨_, findReq_logWrite_self _ a hf, ?_⟩
    simp [writeDomain, hd]
  · intro s rid r a s2 d hf hd hne hok
    rw [log_explicit_ok a hf] at hok
    injection hok with hok
    subst hok
    refine ⟨_, findReq_logWrite_self _ a hf, ?_⟩
    simp [writeDomain, hd, hne]
  · intro netloc
    show (if lstripWWW (pyLower netloc) = [] then str "(no domain)"
      else lstripWWW (pyLower netloc)) ≠ []
    split
    · decide
    · assumption

def c4s2 : Store := (log_tool_call argA (some 1) store1).toOption.getD emptyStore

def req1d : ScrapeRequest := { req1 with domain := some (str "a.com") }

def store1d : Store := { store1 with requests := [req1d] }

def c4s3 : Store :=
  (log_tool_call argB (some 1) store1d).toOption.getD emptyStore

theorem first_domain_wins_witness :
    (∃ r2, findReq c4s2 1 = some r2 ∧
      r2.domain = some (domain_from_url argA.url)) ∧
    (∃ r2, findReq c4s3 1 = some r2 ∧ r2.domain = some (str "a.com")) ∧
    domain_from_url (str "b.org") ≠ [] :=
  ⟨first_domain_wins.1 store1 1 req1 argA c4s2 rfl rfl rfl,
   first_domain_wins.2.1 store1d 1 req1d argB c4s3 (str "a.com") rfl rfl
     (by decide) rfl,
   first_domain_wins.2.2 (str "b.org")⟩

/-- C5 counterexample: with both optional fields omitted and a request id
that refers to no existing request, `update_step_outcome` returns without
error instead of failing with `NotFound` — the claim's unconditional
NotFound clause is false on the code. -/
theorem update_step_outcome_notfound_counterexample :
    findReq emptyStore 7 = none ∧
    update_step_outcome 7 0 none none 5 emptyStore =
      Except.ok emptyStore :=
  ⟨rfl, rfl⟩

/-- C5 (amended): `update_step_outcome` is a no-op (no state change, no
error) whenever both optional fields are omitted, regardless of request
existence; otherwise it fails with `NotFound` when the request id does
not exist, and with `OutOfRange` when `step_id` is not a valid 0-based
index into that request's current steps sequence. -/
theorem update_step_outcome_error_spec :
    (∀ rid stepId now s,
      update_step_outcome rid stepId none none now s = Except.ok s)
  ∧ (∀ rid stepId ledToData notes now s,
      ¬(ledToData = none ∧ notes = none) → findReq s rid = none →
      update_step_outcome rid stepId ledToData notes now s =
        Except.error (Err.notFound rid))
  ∧ (∀ rid stepId ledToData notes now s r,
      ¬(ledToData = none ∧ notes = none) → findReq s rid = some r →
      (stepId < 0 ∨ (r.steps.length : Int) ≤ stepId) →
      update_step_outcome rid stepId ledToData notes now s =
        Except.error (Err.outOfRange stepId rid)) := by
  refine ⟨?_, ?_, ?_⟩
  · intro rid stepId now s
    unfold update_step_outcome
    simp
  · intro rid stepId ld nt now s hno hf
    unfold update_step_outcome
    rw [if_neg hno]
    simp only [hf]
  · intro rid stepId ld nt now s r hno hf hrange
    unfold update_step_outcome
    rw [if_neg hno]
    simp only [hf]
    rw [dif_pos hrange]

theorem update_step_outcome_error_spec_witness :
    update_step_outcome 1 0 none none 4 store1 = Except.ok store1 ∧
    update_step_outcome 7 0 (some true) none 4 store1 =
      Except.error (Err.notFound 7) ∧
    update_step_outcome 1 0 (some true) none 4 store1 =
      Except.error (Err.outOfRange 0 1) :=
  ⟨update_step_outcome_error_spec.1 1 0 4 store1,
   update_step_outcome_error_spec.2.1 7 0 (some true) none 4 store1
     (by simp) rfl,
   update_step_outcome_error_spec.2.2 1 0 (some true) none 4 store1 req1
     (by simp) rfl (by decide)⟩

/-- C2: REFUTED on the code (code bug). `log_tool_call` performs its read
(the SELECT of `steps_json, domain`) and its write (the UPDATE) as two
separate SQLite operations with no lock held in between — each call opens
its own connection and the module takes no mutex — so two concurrent
calls against the same request can both read the same steps array and the
later commit overwrites the earlier one. The schedule read-A, read-B,
write-A, write-B on a request with an empty steps array ends with ONE
step, while the sequential composition of the same two calls ends with
two: an interleaving with a lost append exists, refuting the claim. -/
theorem concurrent_logstep_lost_update :
    logReadPhase store1 1 = some { steps := [], domain := none } ∧
    (findReq (logWritePhase 1 { steps := [], domain := none } argB
        (logWritePhase 1 { steps := [], domain := none } argA store1))
        1).map (fun r => r.steps.length) = some 1 ∧
    (applyLogs [argA, argB] 1 store1).toOption.bind
      (fun s2 => (findReq s2 1).map (fun r => r.steps.length)) = some 2 :=
  ⟨rfl, rfl, rfl⟩

theorem result_summary_spec_witness :
    summarize (str "ok") = str "ok" ∧
    summarize (List.replicate 501 'a') =
      (List.replicate 501 'a').take RESULT_SUMMARY_MAX ++ str "..." :=
  ⟨result_summary_spec.1 (str "ok") (by decide),
   result_summary_spec.2.1 (List.replicate 501 'a')
     (by simp only [List.length_replicate, RESULT_SUMMARY_MAX]; omega)⟩

/-! ### C1: the steps sequence only grows, ids are positional -/

/-- Between two store states: no request's steps sequence shrinks and the
surviving prefix keeps its step ids in place. -/
def stepsPreserved (s s2 : Store) : Prop :=
  ∀ rid r r2, findReq s rid = some r → findReq s2 rid = some r2 →
    r.steps.length ≤ r2.steps.length ∧
    (r2.steps.take r.steps.length).map Step.step_id =
      r.steps.map Step.step_id

theorem stepsPreserved_refl_part (l : List Step) :
    l.length ≤ l.length ∧
    (l.take l.length).map Step.step_id = l.map Step.step_id :=
  ⟨le_refl _, by rw [List.take_length]⟩

theorem log_explicit_growth {s : Store} {rid : Nat} {r : ScrapeRequest}
    (a : LogArgs) (h : findReq s rid = some r) :
    ∃ s2 r2, log_tool_call a (some rid) s = Except.ok s2 ∧
      findReq s2 rid = some r2 ∧
      r2.steps = r.steps ++ [{ mkStep a with step_id := r.steps.length }] := by
  refine ⟨_, _, log_explicit_ok a h,
    findReq_logWrite_self { steps := r.steps, domain := r.domain } a h, rfl⟩

theorem applyLogs_growth (logs : List LogArgs) :
    ∀ s rid r, findReq s rid = some r → goodSteps r.steps →
    ∃ s2 r2, applyLogs logs rid s = Except.ok s2 ∧
      findReq s2 rid = some r2 ∧
      r2.steps.length = r.steps.length + logs.length ∧
      goodSteps r2.steps := by
  induction logs with
  | nil =>
    intro s rid r h hg
    exact ⟨s, r, rfl, h, by simp, hg⟩
  | cons a rest ih =>
    intro s rid r h hg
    obtain ⟨s1, r1, hok, hf1, hsteps⟩ := log_explicit_growth a h
    have hg1 : goodSteps r1.steps := by
      rw [hsteps]; exact goodSteps_append hg rfl
    obtain ⟨s2, r2, happ, hf2, hlen, hgood⟩ := ih s1 rid r1 hf1 hg1
    refine ⟨s2, r2, ?_, hf2, ?_, hgood⟩
    · unfold applyLogs
      rw [hok]
      exact happ
    · rw [hlen, hsteps]
      simp only [List.length_append, List.length_cons, List.length_nil]
      omega

theorem stepsPreserved_log (a : LogArgs) (requestId : Option Nat)
    {s s2 : Store} (h : log_tool_call a requestId s = Except.ok s2) :
    stepsPreserved s s2 := by
  unfold log_tool_call at h
  cases hread : logReadPhase (resolveRequestId requestId a.now s).2
      (resolveRequestId requestId a.now s).1 with
  | none =>
    rw [hread] at h
    exact absurd h (by simp)
  | some rr =>
    rw [hread] at h
    injection h with h
    subst h
    intro rid2 r r2 hf hf2
    have hf1 : findReq (resolveRequestId requestId a.now s).2 rid2 = some r :=
      findReq_resolve requestId a.now s hf
    unfold logWritePhase at hf2
    rw [findReq_updateRows_of_found (resolveRequestId requestId a.now s).1
        (logRowEdit rr a) (fun q => rfl) hf1] at hf2
    injection hf2 with hf2
    subst hf2
    by_cases hid : r.id = (resolveRequestId requestId a.now s).1
    · rw [if_pos hid]
      have hrid2 : rid2 = (resolveRequestId requestId a.now s).1 := by
        rw [← find?_some_id hf, hid]
      have hrr : rr = { steps := r.steps, domain := r.domain } := by
        unfold logReadPhase at hread
        rw [← hrid2, hf1] at hread
        simpa using hread.symm
      subst hrr
      constructor
      · show r.steps.length ≤ (writeSteps _ a).length
        unfold writeSteps
        simp
      · show ((writeSteps { steps := r.steps, domain := r.domain } a).take
            r.steps.length).map Step.step_id = r.steps.map Step.step_id
        unfold writeSteps
        rw [List.take_left r.steps]
    · rw [if_neg hid]
      exact stepsPreserved_refl_part r.steps

theorem update_step_outcome_cases {rid : Nat} {stepId : Int}
    {ld : Option Bool} {nt : Option (List Char)} {now : Nat} {s s2 : Store}
    (h : update_step_outcome rid stepId ld nt now s = Except.ok s2) :
    (s2 = s ∧ ld = none ∧ nt = none) ∨
    (∃ (r0 : ScrapeRequest) (hlt : stepId.toNat < r0.steps.length),
      findReq s rid = some r0 ∧
      s2 = { s with
        requests := updateRows rid
          (outcomeRowEdit
            (r0.steps.set stepId.toNat
              (editStep ld nt (r0.steps.get ⟨stepId.toNat, hlt⟩)))
            now)
          s.requests }) := by
  unfold update_step_outcome at h
  split at h
  next hno =>
    injection h with h
    exact Or.inl ⟨h.symm, hno.1, hno.2⟩
  next hno =>
    split at h
    next hfr => exact absurd h (by simp)
    next r0 hfr =>
      split at h
      next hrange => exact absurd h (by simp)
      next hrange =>
        injection h with h
        have hlt : stepId.toNat < r0.steps.length := by
          rcases not_or.mp hrange with ⟨h1, h2⟩
          omega
        exact Or.inr ⟨r0, hlt, hfr, h.symm⟩

theorem update_step_outcome_preserves {rid : Nat} {stepId : Int}
    {ld : Option Bool} {nt : Option (List Char)} {now : Nat} {s s2 : Store}
    (h : update_step_outcome rid stepId ld nt now s = Except.ok s2) :
    stepsPreserved s s2 ∧
    ∀ r r2, findReq s rid = some r → findReq s2 rid = some r2 →
      r2.steps.length = r.steps.length ∧
      ∀ j (hj : j < r.steps.length) (hj2 : j < r2.steps.length),
        (j ≠ stepId.toNat →
          r2.steps.get ⟨j, hj2⟩ = r.steps.get ⟨j, hj⟩) ∧
        (j = stepId.toNat →
          r2.steps.get ⟨j, hj2⟩ = editStep ld nt (r.steps.get ⟨j, hj⟩)) := by
  rcases update_step_outcome_cases h with ⟨heq, hld, hnt⟩ |
    ⟨r0, hlt, hfr, heq⟩
  · subst heq hld hnt
    constructor
    · intro rid2 r r2 hf hf2
      rw [hf] at hf2
      injection hf2 with hf2
      subst hf2
      exact stepsPreserved_refl_part r.steps
    · intro r r2 hf hf2
      rw [hf] at hf2
      injection hf2 with hf2
      subst hf2
      refine ⟨rfl, fun j hj hj2 => ⟨fun _ => rfl, fun _ => ?_⟩⟩
      rw [editStep_none]
  · subst heq
    constructor
    · intro rid2 r r2 hf hf2
      rw [findReq_updateRows_of_found rid
          (outcomeRowEdit
            (r0.steps.set stepId.toNat
              (editStep ld nt (r0.steps.get ⟨stepId.toNat, hlt⟩)))
            now)
          (fun q => rfl) hf] at hf2
      injection hf2 with hf2
      subst hf2
      by_cases hid : r.id = rid
      · rw [if_pos hid]
        have hr0 : r = r0 := by
          have hfx : findReq s rid = some r := by
            rw [← find?_some_id hf, hid] at hf
            exact hf
          rw [hfx] at hfr
          injection hfr
        subst hr0
        constructor
        · show r.steps.length ≤ (r.steps.set _ _).length
          rw [List.length_set]
        · show ((r.steps.set stepId.toNat _).take r.steps.length).map
              Step.step_id = r.steps.map Step.step_id
          rw [List.take_of_length_le (by rw [List.length_set]),
            set_preserve_map hlt
              (show (editStep ld nt
                  (r.steps.get ⟨stepId.toNat, hlt⟩)).step_id =
                (r.steps.get ⟨stepId.toNat, hlt⟩).step_id from rfl)]
      · rw [if_neg hid]
        exact stepsPreserved_refl_part r.steps
    · intro r r2 hf hf2
      have hr0 : r = r0 := by
        rw [hf] at hfr
        injection hfr
      rw [findReq_updateRows_of_found rid
          (outcomeRowEdit
            (r0.steps.set stepId.toNat
              (editStep ld nt (r0.steps.get ⟨stepId.toNat, hlt⟩)))
            now)
          (fun q => rfl) hf,
        if_pos (find?_some_id hf)] at hf2
      injection hf2 with hf2
      subst hf2
      subst hr0
      refine ⟨?_, fun j hj hj2 => ⟨?_, ?_⟩⟩
      · show (r.steps.set stepId.toNat _).length = r.steps.length
        rw [List.length_set]
      · intro hne
        show (r.steps.set stepId.toNat _).get ⟨j, _⟩ = r.steps.get ⟨j, hj⟩
        simp only [List.get_eq_getElem]
        rw [List.getElem_set_ne (fun hc => hne hc.symm)]
      · intro hje
        subst hje
        show (r.steps.set stepId.toNat _).get ⟨stepId.toNat, _⟩ =
          editStep ld nt (r.steps.get ⟨stepId.toNat, hj⟩)
        simp only [List.get_eq_getElem]
        rw [List.getElem_set_self]

theorem final_result_stepsPreserved (rid : Nat) (fr : Option (List Char))
    (suc : Option Bool) (now : Nat) (s : Store) :
    stepsPreserved s (update_request_final_result rid fr suc now s) := by
  intro rid2 r r2 hf hf2
  unfold update_request_final_result at hf2
  by_cases hb : fr = none ∧ suc = none
  · rw [if_pos hb, hf] at hf2
    injection hf2 with hf2
    subst hf2
    exact stepsPreserved_refl_part r.steps
  · rw [if_neg hb,
      findReq_updateRows_of_found rid (finalRowEdit fr suc now)
        (fun q => rfl) hf] at hf2
    injection hf2 with hf2
    subst hf2
    by_cases hid : r.id = rid
    · rw [if_pos hid]
      exact stepsPreserved_refl_part r.steps
    · rw [if_neg hid]
      exact stepsPreserved_refl_part r.steps

/-- C1: starting from a request with an empty steps array, a sequence of
N `log_tool_call` appends yields a steps sequence of length N whose step
ids equal their 0-based positions; and no store operation —
`log_tool_call`, `update_step_outcome`, `update_request_final_result` —
ever shrinks or reorders an existing steps sequence, `update_step_outcome`
only editing the optional outcome fields of existing steps in place. -/
theorem steps_append_invariant :
    (∀ s rid r (logs : List LogArgs), findReq s rid = some r →
      r.steps = [] →
      ∃ s2 r2, applyLogs logs rid s = Except.ok s2 ∧
        findReq s2 rid = some r2 ∧ r2.steps.length = logs.length ∧
        goodSteps r2.steps)
  ∧ (∀ a requestId s s2, log_tool_call a requestId s = Except.ok s2 →
      stepsPreserved s s2)
  ∧ (∀ rid stepId ld nt now s s2,
      update_step_outcome rid stepId ld nt now s = Except.ok s2 →
      stepsPreserved s s2 ∧
      ∀ r r2, findReq s rid = some r → findReq s2 rid = some r2 →
        r2.steps.length = r.steps.length ∧
        ∀ j (hj : j < r.steps.length) (hj2 : j < r2.steps.length),
          (j ≠ stepId.toNat →
            r2.steps.get ⟨j, hj2⟩ = r.steps.get ⟨j, hj⟩) ∧
          (j = stepId.toNat →
            r2.steps.get ⟨j, hj2⟩ = editStep ld nt (r.steps.get ⟨j, hj⟩)))
  ∧ (∀ rid fr suc now s,
      stepsPreserved s (update_request_final_result rid fr suc now s)) := by
  refine ⟨?_, ?_, ?_, ?_⟩
  · intro s rid r logs hf hempty
    obtain ⟨s2, r2, happ, hf2, hlen, hgood⟩ :=
      applyLogs_growth logs s rid r hf
        (by rw [hempty]; intro j hj; simp at hj)
    rw [hempty] at hlen
    exact ⟨s2, r2, happ, hf2, by simpa using hlen, hgood⟩
  · intro a requestId s s2 h
    exact stepsPreserved_log a requestId h
  · intro rid stepId ld nt now s s2 h
    exact update_step_outcome_preserves h
  · intro rid fr suc now s
    exact final_result_stepsPreserved rid fr suc now s

theorem steps_append_invariant_witness :
    ∃ s2 r2, applyLogs [argA, argB] 1 store1 = Except.ok s2 ∧
      findReq s2 1 = some r2 ∧ r2.steps.length = 2 ∧ goodSteps r2.steps :=
  steps_append_invariant.1 store1 1 req1 [argA, argB] rfl rfl

/-! ### C6: search_history — LIKE semantics, ordering, clamping -/

theorem anySuffixMatch_iff (f : List Char → Bool) (t : List Char) :
    anySuffixMatch f t = true ↔ ∃ t2, t2 <:+ t ∧ f t2 = true := by
  induction t with
  | nil =>
    constructor
    · intro h
      exact ⟨[], List.nil_suffix, h⟩
    · rintro ⟨t2, hs, hf⟩
      rwa [List.suffix_nil.mp hs] at hf
  | cons d t ih =>
    simp only [anySuffixMatch, Bool.or_eq_true, ih]
    constructor
    · rintro (h | ⟨t2, hs, hf⟩)
      · exact ⟨d :: t, List.suffix_refl _, h⟩
      · exact ⟨t2, hs.trans (List.suffix_cons d t), hf⟩
    · rintro ⟨t2, hs, hf⟩
      rcases List.suffix_cons_iff.mp hs with h | h
      · subst h
        exact Or.inl hf
      · exact Or.inr ⟨t2, h, hf⟩

theorem noWild_cons {c : Char} {p : List Char} (hp : noWild (c :: p)) :
    c ≠ '%' ∧ c ≠ '_' ∧ noWild p := by
  unfold noWild at hp ⊢
  simp only [List.mem_cons, not_or] at hp
  exact ⟨fun he => hp.1.1 he.symm, fun he => hp.2.1 he.symm,
    hp.1.2, hp.2.2⟩

theorem likeMatch_starts :
    ∀ (p t : List Char), noWild p →
      (likeMatch (p ++ ['%']) t = true ↔ pyLower p <+: pyLower t) := by
  intro p
  induction p with
  | nil =>
    intro t _
    constructor
    · intro _
      exact List.nil_prefix
    · intro _
      show anySuffixMatch (likeMatch []) t = true
      exact (anySuffixMatch_iff _ _).mpr ⟨[], List.nil_suffix, rfl⟩
  | cons c p ih =>
    intro t hp
    obtain ⟨hc1, hc2, hp2⟩ := noWild_cons hp
    cases t with
    | nil =>
      show (if c = '%' then anySuffixMatch (likeMatch (p ++ ['%'])) []
        else false) = true ↔ _
      rw [if_neg hc1]
      simp [pyLower]
    | cons d t2 =>
      show (if c = '%' then anySuffixMatch (likeMatch (p ++ ['%'])) (d :: t2)
        else (if c = '_' then true else c.toLower == d.toLower) &&
          likeMatch (p ++ ['%']) t2) = true ↔ _
      rw [if_neg hc1, if_neg hc2]
      simp only [Bool.and_eq_true, beq_iff_eq, pyLower, List.map_cons,
        List.cons_prefix_cons]
      exact and_congr_right (fun _ => ih t2 hp2)

theorem likeContains_substring {f : List Char} (hf : noWild f)
    (t : List Char) :
    likeContains f t = true ↔ pyLower f <:+: pyLower t := by
  show anySuffixMatch (likeMatch (f ++ ['%'])) t = true ↔ _
  rw [anySuffixMatch_iff]
  constructor
  · rintro ⟨t2, hs, hm⟩
    exact List.infix_iff_prefix_suffix.mpr
      ⟨pyLower t2, (likeMatch_starts f t2 hf).mp hm, hs.map Char.toLower⟩
  · intro hinf
    rcases List.infix_iff_prefix_suffix.mp hinf with ⟨m, hpre, hsuf⟩
    have hdrop := List.suffix_iff_eq_drop.mp hsuf
    refine ⟨t.drop ((pyLower t).length - m.length), List.drop_suffix _ _,
      (likeMatch_starts f _ hf).mpr ?_⟩
    have hm2 : pyLower (t.drop ((pyLower t).length - m.length)) = m := by
      conv_rhs => rw [hdrop]
      exact List.map_drop _ _ _
    rw [hm2]
    exact hpre

def reqAxb : ScrapeRequest :=
  { id := 1, prompt := str "p", domain := some (str "axb"), steps := [],
    final_result := none, success := none, created_at := 0, updated_at := 0 }

def storeAxb : Store :=
  { requests := [reqAxb], nextId := 2, currentRequestId := none,
    advice := [], nextAdviceId := 1 }

/-- C6 counterexample: a `_` in the domain filter is a SQL `LIKE`
wildcard, not a literal: `search_history` with filter `"a_b"` returns the
request whose stored domain is `"axb"`, although `"a_b"` is not a
case-insensitive substring of `"axb"` — so "contains the given domain
filter as a substring" fails as stated. -/
theorem search_like_wildcard_counterexample :
    search_history storeAxb (some (str "a_b")) none 50 = [reqAxb] ∧
    ¬ pyLower (str "a_b") <:+: pyLower (str "axb") := by
  constructor
  · rfl
  · decide

/-- C6 (amended): `search_history` returns at most
`min(max(limit, 1), 500)` requests (the limit is clamped, never
rejected), ordered newest-first by creation time; with a domain filter
every returned request's domain matches the SQL pattern
`LIKE '%'||filter||'%'`; and for filters free of the LIKE wildcards `%`
and `_` that pattern match coincides with case-insensitive substring
containment. -/
theorem search_history_spec (s : Store) (d u : Option (List Char))
    (limit : Int) :
    (search_history s d u limit).length ≤ clampLimit limit
  ∧ clampLimit limit = (min (max limit 1) 500).toNat
  ∧ List.Sorted newerEq (search_history s d u limit)
  ∧ (∀ f r, domainFilterNorm d = some f →
      r ∈ search_history s d u limit →
      ∃ dd, r.domain = some dd ∧ likeContains f dd = true)
  ∧ (∀ f t, noWild f →
      (likeContains f t = true ↔ pyLower f <:+: pyLower t)) := by
  have hsub : List.Sublist (search_history s d u limit)
      ((List.insertionSort newerEq
        (s.requests.filter (domainPass (domainFilterNorm d)))).take
        (clampLimit limit)) := by
    unfold search_history
    cases hu : urlContainsNorm u with
    | none =>
      simp only [hu]
      exact List.Sublist.refl _
    | some u2 =>
      simp only [hu]
      exact List.filter_sublist _
  refine ⟨?_, by unfold clampLimit; omega, ?_, ?_,
    fun f t hf => likeContains_substring hf t⟩
  · refine le_trans hsub.length_le ?_
    rw [List.length_take]
    exact min_le_left _ _
  · exact List.Pairwise.sublist (hsub.trans (List.take_sublist _ _))
      (List.sorted_insertionSort newerEq _)
  · intro f r hdn hr
    have hr2 : r ∈ s.requests.filter (domainPass (domainFilterNorm d)) := by
      have h1 := hsub.mem hr
      have h2 := List.take_subset _ _ h1
      exact (List.perm_insertionSort newerEq _).mem_iff.mp h2
    have hp := List.of_mem_filter hr2
    rw [hdn] at hp
    cases hd : r.domain with
    | none =>
      rw [show domainPass (some f) r = false from by
        simp [domainPass, hd]] at hp
      exact absurd hp (by simp)
    | some dd =>
      refine ⟨dd, rfl, ?_⟩
      rw [show domainPass (some f) r = likeContains f dd from by
        simp [domainPass, hd]] at hp
      exact hp

def reqEx : ScrapeRequest :=
  { id := 2, prompt := str "q", domain := some (str "docs.example.com"),
    steps := [], final_result := none, success := none,
    created_at := 3, updated_at := 3 }

def storeEx : Store :=
  { requests := [reqEx], nextId := 3, currentRequestId := none,
    advice := [], nextAdviceId := 1 }

theorem search_history_spec_witness :
    (∃ dd, reqEx.domain = some dd ∧
      likeContains (str "example") dd = true) ∧
    (likeContains (str "amp") (str "EXAMPLE.com") = true ↔
      pyLower (str "amp") <:+: pyLower (str "EXAMPLE.com")) :=
  ⟨(search_history_spec storeEx (some (str "example")) none 10).2.2.2.1
      (str "example") reqEx rfl (by decide),
   (search_history_spec storeEx (some (str "example")) none 10).2.2.2.2
      (str "amp") (str "EXAMPLE.com") (by decide)⟩

end WebScraper
